import Mathlib

/-!
Verification of the FHIR temporal graph builder
(`neurofhir/temporal_builder.py`, class `FHIRTemporalGraphBuilder`).

The Python module is shallowly embedded here:

* Python values that the builder inspects are modelled by `PyVal`
  (records hold string keys; nested sub-objects such as `period`,
  `subject`, `encounter` are one dictionary level deep, which covers every
  access the source performs).
* Python exceptions that can escape or be caught are modelled by `PyErr`
  on `Except`; the builder only ever catches `ValueError` (timestamp
  parsing, modelled as an `Option` result of `fromisoformatChars`) and the
  blanket `except Exception` around each reference-field block.
* Instants are UTC seconds since the epoch (`Int`); the time window is a
  positive number of seconds.  `datetime.fromisoformat` is modelled by an
  executable parser for the ISO-8601 forms the CPython implementation
  accepts for `YYYY-MM-DD[*HH[:MM[:SS[.fff[fff]]]][+HH:MM[:SS]]]`,
  at second granularity.
* The builder's mutable `self.node_mapping` dictionary-of-dictionaries is
  threaded explicitly as `NodeMapping`, an insertion-ordered association
  list (Python dictionaries preserve insertion order, and the stored index
  of an id always equals its insertion position).
-/

/-- Decidable equality for `Except`, used to evaluate the embedding on
concrete inputs. -/
instance {ε : Type} {α : Type} [DecidableEq ε] [DecidableEq α] :
    DecidableEq (Except ε α) := fun x y =>
  match x, y with
  | .ok a, .ok b =>
    if h : a = b then isTrue (h ▸ rfl) else isFalse (fun hc => h (Except.ok.inj hc))
  | .error a, .error b =>
    if h : a = b then isTrue (h ▸ rfl) else isFalse (fun hc => h (Except.error.inj hc))
  | .ok _, .error _ => isFalse (fun hc => Except.noConfusion hc)
  | .error _, .ok _ => isFalse (fun hc => Except.noConfusion hc)

/-- Python exception classes that the embedded code can raise.  `ValueError`
never appears because the only `ValueError` site (timestamp parsing, caught
at line 101) is modelled as an `Option` result. -/
inductive PyErr where
  | typeError
  | attributeError
  | columnNotFound
deriving DecidableEq

/-- An atomic Python value stored inside a nested sub-object of a record. -/
inductive PyAtom where
  | anone
  | astr (s : String)
  | aint (n : Int)
deriving DecidableEq

/-- A Python value stored directly under a key of a raw record.  Nested
dictionaries hold atoms only; the source never reads deeper than one level
(`res.get("period", {}).get("start")`, `res.get(f, {}).get("reference")`). -/
inductive PyVal where
  | vnone
  | vstr (s : String)
  | vint (n : Int)
  | vdict (kvs : List (String × PyAtom))
deriving DecidableEq

/-- Embed an atom back into `PyVal` (reading a key of a nested dictionary). -/
def atomToVal : PyAtom → PyVal
  | .anone => .vnone
  | .astr s => .vstr s
  | .aint n => .vint n

/-- A raw FHIR record: a string-keyed Python dictionary. -/
abbrev RawRecord := List (String × PyVal)

/-- `res.get(k)`: `None` when the key is absent. -/
def dictGet (res : RawRecord) (k : String) : PyVal :=
  match res.lookup k with
  | some v => v
  | none => .vnone

/-- `res.get(k, d)`: the default is used only when the key is absent (a key
present with value `None` still yields `None`). -/
def dictGetD (res : RawRecord) (k : String) (d : PyVal) : PyVal :=
  match res.lookup k with
  | some v => v
  | none => d

/-- `v.get(k)` on a value that may not be a dictionary: raises
`AttributeError` unless `v` is a dictionary (lines 78, 105, 106). -/
def getAttr (v : PyVal) (k : String) : Except PyErr PyVal :=
  match v with
  | .vdict kvs => .ok (atomToVal ((kvs.lookup k).getD .anone))
  | _ => .error .attributeError

/-- Python truthiness of the values a record can hold: `None`, `""`, `0`
and `{}` are falsy. -/
def truthy : PyVal → Bool
  | .vnone => false
  | .vstr s => !s.isEmpty
  | .vint n => n != 0
  | .vdict kvs => !kvs.isEmpty

/-- `res.get("period", {}).get("start")` from line 78: the sub-expression of
the timestamp `or`-chain that can raise. -/
def periodStart (res : RawRecord) : Except PyErr PyVal :=
  getAttr (dictGetD res "period" (.vdict [])) "start"

/-- Timestamp selection, lines 74-80: the Python `or`-chain
`recordedDate or effectiveDateTime or issued or authoredOn or
period.start or birthDate or date`.  `or` short-circuits on the first
truthy operand (not the first non-null one) and `period.start` is only
evaluated when all earlier operands are falsy. -/
def selectTs (res : RawRecord) : Except PyErr PyVal :=
  let a := dictGet res "recordedDate"
  if truthy a then .ok a else
  let b := dictGet res "effectiveDateTime"
  if truthy b then .ok b else
  let c := dictGet res "issued"
  if truthy c then .ok c else
  let d := dictGet res "authoredOn"
  if truthy d then .ok d else
  match periodStart res with
  | .error e => .error e
  | .ok p =>
    if truthy p then .ok p else
    let f := dictGet res "birthDate"
    if truthy f then .ok f else
    .ok (dictGet res "date")

/-- Index of the first occurrence of `sep` inside `l` (`str.find`). -/
def findSubIdx (sep : List Char) : List Char → Option Nat
  | [] => none
  | c :: cs => if sep.isPrefixOf (c :: cs) then some 0 else (findSubIdx sep cs).map (· + 1)

/-- Fuel-driven worker for `strSplitOn`; fuel at least the list length makes
the fallback branch unreachable. -/
def splitGo (sep : List Char) : Nat → List Char → List (List Char)
  | 0, l => [l]
  | fuel + 1, l =>
    match findSubIdx sep l with
    | none => [l]
    | some i => l.take i :: splitGo sep fuel (l.drop (i + sep.length))

/-- Python `s.split(sep)` for a non-empty separator. -/
def strSplitOn (s sep : String) : List String :=
  (splitGo sep.data (s.data.length + 1) s.data).map String.mk

/-- Python `sub in s`. -/
def strContains (s sub : String) : Bool :=
  (findSubIdx sub.data s.data).isSome

/-- Python `s.startswith(p)`. -/
def strStartsWith (s p : String) : Bool :=
  p.data.isPrefixOf s.data

/-- Python `s.endswith(p)`. -/
def strEndsWith (s p : String) : Bool :=
  p.data.isSuffixOf s.data

/-- Proleptic-Gregorian leap year. -/
def isLeapYear (y : Int) : Bool :=
  y % 4 = 0 && (y % 100 != 0 || y % 400 = 0)

/-- Day count of a month, as validated by the `datetime` constructor. -/
def daysInMonth (y : Int) (m : Nat) : Nat :=
  match m with
  | 1 => 31 | 3 => 31 | 5 => 31 | 7 => 31 | 8 => 31 | 10 => 31 | 12 => 31
  | 4 => 30 | 6 => 30 | 9 => 30 | 11 => 30
  | 2 => if isLeapYear y then 29 else 28
  | _ => 0

/-- Days from 1970-01-01 to year/month/day (proleptic Gregorian). -/
def daysFromCivil (y : Int) (m : Int) (d : Int) : Int :=
  let yAdj := if m ≤ 2 then y - 1 else y
  let era := Int.fdiv yAdj 400
  let yoe := yAdj - era * 400
  let mp := Int.emod (m + 9) 12
  let doy := Int.fdiv (153 * mp + 2) 5 + d - 1
  let doe := yoe * 365 + Int.fdiv yoe 4 - Int.fdiv yoe 100 + doy
  era * 146097 + doe - 719468

/-- Two decimal digits. -/
def read2 : List Char → Option (Nat × List Char)
  | a :: b :: rest =>
    if a.isDigit && b.isDigit then
      some ((a.toNat - 48) * 10 + (b.toNat - 48), rest)
    else none
  | _ => none

/-- Four decimal digits. -/
def read4 : List Char → Option (Nat × List Char)
  | a :: b :: c :: d :: rest =>
    if a.isDigit && b.isDigit && c.isDigit && d.isDigit then
      some (((a.toNat - 48) * 1000 + (b.toNat - 48) * 100
             + (c.toNat - 48) * 10 + (d.toNat - 48)), rest)
    else none
  | _ => none

/-- Expect one specific character. -/
def expectChar (c : Char) : List Char → Option (List Char)
  | x :: rest => if x = c then some rest else none
  | [] => none

/-- Leading run of decimal digits and the remainder. -/
def takeDigits : List Char → List Char × List Char
  | [] => ([], [])
  | c :: cs =>
    if c.isDigit then
      let r := takeDigits cs
      (c :: r.1, r.2)
    else ([], c :: cs)

/-- UTC-offset tail `±HH:MM[:SS]` of an ISO time string.  CPython parses the
components without per-field range checks; the resulting `timezone` offset
must be strictly within one day. -/
def parseOffset (l : List Char) : Option Int := do
  match l with
  | [] => none
  | s :: r1 =>
    let sign : Int ← if s = '+' then some 1 else if s = '-' then some (-1) else none
    let (oh, r2) ← read2 r1
    let r3 ← expectChar ':' r2
    let (om, r4) ← read2 r3
    let (os, r5) ←
      match r4 with
      | ':' :: r => read2 r
      | r => some (0, r)
    if r5 = [] then
      let total : Int := (oh : Int) * 3600 + (om : Int) * 60 + (os : Int)
      if total < 86400 then some (sign * total) else none
    else none

/-- After the time components: either the end of the string (naive) or a
UTC offset. -/
def finishTime (sod : Nat) : List Char → Option (Nat × Option Int)
  | [] => some (sod, none)
  | rest => (parseOffset rest).map (fun off => (sod, some off))

/-- Time-of-day part `HH[:MM[:SS[.fff[fff]]]]` with an optional trailing
UTC offset; seconds-of-day together with the offset in seconds (the
sub-second fraction is validated then discarded). -/
def parseTimeOffset (l : List Char) : Option (Nat × Option Int) := do
  let (h, r1) ← read2 l
  if h > 23 then none else
  match r1 with
  | ':' :: rm => do
    let (mi, r2) ← read2 rm
    if mi > 59 then none else
    match r2 with
    | ':' :: rs => do
      let (sec, r3) ← read2 rs
      if sec > 59 then none else
      match r3 with
      | '.' :: rf =>
        let dr := takeDigits rf
        if dr.1.length = 3 || dr.1.length = 6 then
          finishTime (h * 3600 + mi * 60 + sec) dr.2
        else none
      | r => finishTime (h * 3600 + mi * 60 + sec) r
    | r => finishTime (h * 3600 + mi * 60) r
  | r => finishTime (h * 3600) r

/-- Model of `datetime.datetime.fromisoformat`: on success, the naive
instant in seconds (interpreting the civil time directly) together with the
UTC offset in seconds when one is present; `none` models `ValueError`. -/
def fromisoformatChars (l : List Char) : Option (Int × Option Int) := do
  let (y, r1) ← read4 l
  let r2 ← expectChar '-' r1
  let (mo, r3) ← read2 r2
  let r4 ← expectChar '-' r3
  let (d, r5) ← read2 r4
  if y < 1 then none else
  if mo < 1 || mo > 12 then none else
  if d < 1 || d > daysInMonth (y : Int) mo then none else
  let dateSecs := daysFromCivil (y : Int) (mo : Int) (d : Int) * 86400
  match r5 with
  | [] => some (dateSecs, none)
  | _sep :: tl =>
    (parseTimeOffset tl).map (fun p => (dateSecs + (p.1 : Int), p.2))

/-- Timestamp normalization, lines 85-102: pad a bare year to `-01-01`, a
year-month to `-01`, replace a trailing `Z` by `+00:00`, parse, then take a
naive value as UTC and convert an aware value to UTC.  `ValueError`
(parse failure) is caught and drops the record (`.ok none`); any non-string
value raises before `fromisoformat` is reached (`len`, `+=` and `.endswith`
on a non-string raise `TypeError` or `AttributeError`, neither of which the
`except ValueError` clause catches) - modelled uniformly as `typeError`. -/
def parseTs : PyVal → Except PyErr (Option Int)
  | .vstr s =>
    let s1 := if s.length = 4 then s ++ "-01-01" else s
    let s2 := if s1.length = 7 then s1 ++ "-01" else s1
    let s3 := if strEndsWith s2 "Z" then s2.dropRight 1 ++ "+00:00" else s2
    match fromisoformatChars s3.data with
    | none => .ok none
    | some (t, off) => .ok (some (t - (off.getD 0)))
  | _ => .error .typeError

/-- `res.get(k, {}).get("reference")`, lines 105-106. -/
def getRefField (res : RawRecord) (k : String) : Except PyErr PyVal :=
  getAttr (dictGetD res k (.vdict [])) "reference"

/-- One row of the flat DataFrame built at lines 108-115 (the `payload`
column is stored but never read afterwards and is omitted). -/
structure Row where
  resourceType : PyVal
  rid : PyVal
  timestamp : Int
  subj_ref : PyVal
  enc_ref : PyVal
deriving DecidableEq

/-- Normalization of one raw record, lines 74-115: select the timestamp
value, drop the record when it is falsy or fails to parse, then eagerly
extract the `subject` and `encounter` reference strings. -/
def normalizeRecord (res : RawRecord) : Except PyErr (Option Row) := do
  let tsv ← selectTs res
  if truthy tsv then
    match ← parseTs tsv with
    | none => pure none
    | some t =>
      let subj ← getRefField res "subject"
      let enc ← getRefField res "encounter"
      pure (some { resourceType := dictGet res "resourceType", rid := dictGet res "id",
                   timestamp := t, subj_ref := subj, enc_ref := enc })
  else
    pure none

/-- Normalize every record in order, keeping the rows of the surviving
records. -/
def normalizeAll : List RawRecord → Except PyErr (List Row)
  | [] => .ok []
  | r :: rs => do
    let x ← normalizeRecord r
    let xs ← normalizeAll rs
    match x with
    | some row => pure (row :: xs)
    | none => pure xs

/-- The builder's global node registry `self.node_mapping`
(`{ResourceType: {OriginalID: Index}}`), as an insertion-ordered
association list; the stored index of an id equals its position in the
per-type list, because `_get_node_index` assigns `len(mapping)` at
insertion and entries are never removed. -/
abbrev NodeMapping := List (PyVal × List PyVal)

/-- Position of an id inside a per-type id list (the stored index). -/
def idIndex (i : PyVal) : List PyVal → Option Nat
  | [] => none
  | j :: js => if j = i then some 0 else (idIndex i js).map (· + 1)

/-- `_get_node_index` (lines 53-61): get-or-create a stable integer index
for `(resource_type, resource_id)`.  A new type is appended at the end of
the outer dictionary; a new id is appended with index `len(mapping)`. -/
def getNodeIndex : NodeMapping → PyVal → PyVal → NodeMapping × Nat
  | [], t, i => ([(t, [i])], 0)
  | (t', ids) :: rest, t, i =>
    if t = t' then
      match idIndex i ids with
      | some j => ((t', ids) :: rest, j)
      | none => ((t', ids ++ [i]) :: rest, ids.length)
    else
      let r := getNodeIndex rest t i
      ((t', ids) :: r.1, r.2)

/-- Register a list of `(type, id)` pairs in order, keeping only the
mapping (the returned indices are discarded). -/
def registerPairs (m : NodeMapping) (ps : List (PyVal × PyVal)) : NodeMapping :=
  ps.foldl (fun acc p => (getNodeIndex acc p.1 p.2).1) m

/-- The id list registered for a type, when the type is present. -/
def typeIds : NodeMapping → PyVal → Option (List PyVal)
  | [], _ => none
  | (t', ids) :: rest, t => if t = t' then some ids else typeIds rest t

/-- `len(self.node_mapping[t])`: the cumulative identity count of a type. -/
def countFor (m : NodeMapping) (t : PyVal) : Nat :=
  ((typeIds m t).getD []).length

/-- The index currently assigned to `(t, i)`, if any. -/
def lookupIndex (m : NodeMapping) (t i : PyVal) : Option Nat :=
  (typeIds m t).bind (idIndex i)

/-- Membership of a `(type, id)` pair in the registry. -/
def memPair (m : NodeMapping) (t i : PyVal) : Prop :=
  ∃ ids, typeIds m t = some ids ∧ i ∈ ids

/-- Registry well-formedness: type keys are distinct and each per-type id
list has no duplicates. -/
def WFMapping (m : NodeMapping) : Prop :=
  (m.map Prod.fst).Nodup ∧ ∀ p ∈ m, p.2.Nodup

/-- Insert a row into the per-type groups, appending a new type group at
the end (`df.partition_by("resourceType", as_dict=True)` groups in order
of first occurrence and preserves row order within a group). -/
def addRowToGroups (gs : List (PyVal × List Row)) (r : Row) : List (PyVal × List Row) :=
  match gs with
  | [] => [(r.resourceType, [r])]
  | (t, rs) :: rest =>
    if r.resourceType = t then (t, rs ++ [r]) :: rest
    else (t, rs) :: addRowToGroups rest r

/-- `df.partition_by("resourceType", as_dict=True)` at line 166. -/
def partitionByType (rows : List Row) : List (PyVal × List Row) :=
  rows.foldl addRowToGroups []

/-- Step 1 of `_construct_hetero_data` (lines 166-187): register every row
of the window by type group; the second component is the per-type
`current_max` recorded on the pre-assembly container (the value written to
`data[r_type].num_nodes`, computed right after the group's rows are
registered). -/
def step1 (m : NodeMapping) (rows : List Row) : NodeMapping × List (PyVal × Nat) :=
  (partitionByType rows).foldl
    (fun acc tg =>
      let m' := registerPairs acc.1 (tg.2.map (fun r => (r.resourceType, r.rid)))
      (m', acc.2 ++ [(tg.1, countFor m' tg.1)]))
    (m, [])

/-- Inferred target type per reference field (lines 274-276). -/
def inferredType (f : String) : String :=
  if f = "subject" then "Patient"
  else if f = "encounter" then "Encounter"
  else "Practitioner"

/-- First `map_elements` lambda (line 263):
`x.split("/")[-2] if "/" in x and not x.startswith("urn:") else None`. -/
def tgtTypeHint (x : String) : Option String :=
  if strContains x "/" && !(strStartsWith x "urn:") then
    let parts := strSplitOn x "/"
    some (parts.getD (parts.length - 2) "")
  else none

/-- Second `map_elements` lambda (line 264):
`x.split(":")[-1] if "urn:" in x else (x.split("/")[-1] if "/" in x else x)`. -/
def tgtIdFun (x : String) : String :=
  if strContains x "urn:" then
    let parts := strSplitOn x ":"
    parts.getD (parts.length - 1) ""
  else if strContains x "/" then
    let parts := strSplitOn x "/"
    parts.getD (parts.length - 1) ""
  else x

/-- Combined reference resolution of one reference string: the type hint
with the inferred-type fallback (lines 279-284), paired with the target
id. -/
def resolveRef (x inferred : String) : String × String :=
  ((tgtTypeHint x).getD inferred, tgtIdFun x)

/-- `pl.col(f"{ref_field}_ref")`: project the eagerly-extracted reference
column; any other configured field name has no column and raises. -/
def refOf (f : String) (r : Row) : Except PyErr PyVal :=
  if f = "subject" then .ok r.subj_ref
  else if f = "encounter" then .ok r.enc_ref
  else .error .columnNotFound

/-- `map_elements` applies a string method to the reference value; on a
non-string value the lambda raises (modelled uniformly as `typeError`). -/
def asStr : PyVal → Except PyErr String
  | .vstr s => .ok s
  | _ => .error .typeError

/-- One parsed edge candidate: source row plus resolved target type/id. -/
structure ParsedRef where
  row : Row
  tgtType : String
  tgtId : String
deriving DecidableEq

/-- The pure parsing phase of one reference field (lines 240-284): project
the reference column, filter nulls, and resolve each reference string.
Everything that can raise inside the `try` block happens here, before any
registry mutation. -/
def relParse (rows : List Row) (f : String) : Except PyErr (List ParsedRef) := do
  let refs ← rows.mapM (refOf f)
  let cands := (rows.zip refs).filter (fun p => !(p.2 == PyVal.vnone))
  cands.mapM (fun p => do
    let s ← asStr p.2
    pure { row := p.1, tgtType := (tgtTypeHint s).getD (inferredType f),
           tgtId := tgtIdFun s })

/-- The `(src, tgt)` registration pairs of the first edge loop
(lines 295-306): for each candidate, source then target. -/
def relPairs1 (parsed : List ParsedRef) : List (PyVal × PyVal) :=
  (parsed.map (fun pr =>
    [(pr.row.resourceType, pr.row.rid),
     (PyVal.vstr pr.tgtType, PyVal.vstr pr.tgtId)])).flatten

/-- Key of an edge-relation entry: `(source_type, relation, target_type)`. -/
abbrev EdgeKey := PyVal × String × PyVal

/-- `edges_dict`: per key, the paired source/target index lists. -/
abbrev EdgeDict := List (EdgeKey × (List Nat × List Nat))

instance : DecidableEq EdgeKey := inferInstance

instance : DecidableEq (EdgeKey × (List Nat × List Nat)) := inferInstance

instance : DecidableEq EdgeDict := inferInstance

instance : DecidableEq (List EdgeDict) := inferInstance

/-- Append one `(source_index, target_index)` pair under a key, creating
the key at the end on first use (lines 319-324). -/
def edAppend : EdgeDict → EdgeKey → Nat → Nat → EdgeDict
  | [], k, s, t => [(k, ([s], [t]))]
  | (k', ls) :: rest, k, s, t =>
    if k = k' then (k', (ls.1 ++ [s], ls.2 ++ [t])) :: rest
    else (k', ls) :: edAppend rest k s t

/-- The revised second edge loop (lines 315-324): re-register each
candidate's source and target (idempotent) and append the index pair to
`edges_dict`. -/
def secondLoop (rel : String) (st : NodeMapping × EdgeDict) (parsed : List ParsedRef) :
    NodeMapping × EdgeDict :=
  parsed.foldl
    (fun acc pr =>
      let s := getNodeIndex acc.1 pr.row.resourceType pr.row.rid
      let t := getNodeIndex s.1 (PyVal.vstr pr.tgtType) (PyVal.vstr pr.tgtId)
      (t.1, edAppend acc.2 (pr.row.resourceType, rel, PyVal.vstr pr.tgtType) s.2 t.2))
    st

/-- Processing of one configured reference field inside the `try` block
(lines 240-324): parse, then run the two registration loops.  When there
are no candidates both loops are empty, which coincides with the
`continue` at line 249. -/
def processRelation (m : NodeMapping) (ed : EdgeDict) (rows : List Row) (f rel : String) :
    Except PyErr (NodeMapping × EdgeDict) := do
  let parsed ← relParse rows f
  let m1 := registerPairs m (relPairs1 parsed)
  pure (secondLoop rel (m1, ed) parsed)

/-- `relation_configs` (lines 220-226). -/
def relationConfigs : List (String × String) :=
  [("subject", "refers_to"), ("encounter", "occurs_in")]

/-- One iteration of the relation loop with its `except Exception: pass`
(lines 229-329): a failure leaves the registry and `edges_dict` exactly as
they were. -/
def relationStep (rows : List Row) (acc : NodeMapping × EdgeDict) (cfg : String × String) :
    NodeMapping × EdgeDict :=
  match processRelation acc.1 acc.2 rows cfg.1 cfg.2 with
  | .ok st => st
  | .error _ => acc

/-- Shared core of `_construct_hetero_data`: step-1 registration (with the
per-type counts written to the pre-assembly container) followed by the
relation loop building `edges_dict`. -/
def constructCore (m : NodeMapping) (rows : List Row) :
    NodeMapping × List (PyVal × Nat) × EdgeDict :=
  let s1 := step1 m rows
  let s3 := relationConfigs.foldl (relationStep rows) (s1.1, [])
  (s3.1, s1.2, s3.2)

/-- The plain-mapping snapshot (lines 345-350). -/
structure Snapshot where
  timestamp : Int
  numNodes : List (PyVal × Nat)
  edgeIndexDict : EdgeDict
deriving DecidableEq

/-- The tensor-graph snapshot: a `HeteroData` container carrying per-type
`num_nodes` attributes, per-key `edge_index` tensors and a `timestamp`
attribute. -/
structure HeteroSnapshot where
  nodeTypes : List (PyVal × Nat)
  edgeIndex : EdgeDict
  timestamp : Int
deriving DecidableEq

/-- `_construct_hetero_data` in the plain-mapping representation
(lines 344-350): the returned dictionary's `num_nodes` is rebuilt from the
whole cumulative registry; the per-type counts written to the earlier
container (`core.2.1`) are discarded. -/
def constructDict (m : NodeMapping) (rows : List Row) (ws : Int) : NodeMapping × Snapshot :=
  let core := constructCore m rows
  (core.1,
   { timestamp := ws,
     numNodes := core.1.map (fun p => (p.1, p.2.length)),
     edgeIndexDict := core.2.2 })

/-- `_construct_hetero_data` in the tensor-graph representation
(lines 337-343): line 338 rebinds `data = HeteroData()`, a fresh container,
so the per-type `num_nodes` values written at line 187 (`core.2.1`) are
discarded and only `edge_index` entries and the `timestamp` attribute are
set on the returned container. -/
def constructTensor (m : NodeMapping) (rows : List Row) (ws : Int) :
    NodeMapping × HeteroSnapshot :=
  let core := constructCore m rows
  (core.1, { nodeTypes := [], edgeIndex := core.2.2, timestamp := ws })

/-- `pl.col("timestamp").dt.truncate(self.time_window)` for a window of `w`
seconds: round the instant down to a multiple of `w`. -/
def truncateTo (w t : Int) : Int := w * Int.fdiv t w

/-- Comparison used by `df.sort("timestamp")`. -/
def rowLE (a b : Row) : Prop := a.timestamp ≤ b.timestamp

instance : DecidableRel rowLE := fun a b => Int.decLe a.timestamp b.timestamp

instance : IsTotal Row rowLE := ⟨fun a b => Int.le_total a.timestamp b.timestamp⟩

instance : IsTrans Row rowLE := ⟨fun _ _ _ h1 h2 => Int.le_trans h1 h2⟩

/-- `df.sort("timestamp")` at line 120 (some sorted permutation; the model
uses a stable insertion sort). -/
def sortRows (rows : List Row) : List Row := List.insertionSort rowLE rows

/-- Prepend a row with key `k` onto a chunk list. -/
def chunkStep (k : Int) (r : Row) : List (Int × List Row) → List (Int × List Row)
  | [] => [(k, [r])]
  | (k', g) :: cs => if k = k' then (k', r :: g) :: cs else (k, [r]) :: (k', g) :: cs

/-- Group consecutive rows sharing a key.  On the sorted frame this equals
`df.group_by("snapshot_idx", maintain_order=True)` at line 137, since equal
truncated keys are adjacent after sorting. -/
def chunkBy (key : Row → Int) : List Row → List (Int × List Row)
  | [] => []
  | r :: rs => chunkStep (key r) r (chunkBy key rs)

/-- The window partitioning stage (lines 120-137): sort by instant, assign
`snapshot_idx` by truncation, group by it in order. -/
def windowPartition (w : Int) (rows : List Row) : List (Int × List Row) :=
  chunkBy (fun r => truncateTo w r.timestamp) (sortRows rows)

/-- The per-window loop of `build_snapshots` (lines 137-145) in the
plain-mapping representation, threading the registry through the windows in
order and collecting the yielded snapshots. -/
def buildFromRowsD (w : Int) (m : NodeMapping) (rows : List Row) :
    NodeMapping × List Snapshot :=
  (windowPartition w rows).foldl
    (fun acc kg =>
      let r := constructDict acc.1 kg.2 kg.1
      (r.1, acc.2 ++ [r.2]))
    (m, [])

/-- The per-window loop in the tensor-graph representation. -/
def buildFromRowsT (w : Int) (m : NodeMapping) (rows : List Row) :
    NodeMapping × List HeteroSnapshot :=
  (windowPartition w rows).foldl
    (fun acc kg =>
      let r := constructTensor acc.1 kg.2 kg.1
      (r.1, acc.2 ++ [r.2]))
    (m, [])

/-- `build_snapshots` end to end (plain-mapping representation): the two
early returns at lines 67-68 and 117-118 yield an empty sequence without
touching the registry; otherwise normalization runs first (any uncaught
exception escapes before any registration) and the window loop follows. -/
def buildSnapshotsFull (w : Int) (m : NodeMapping) (resources : List RawRecord) :
    Except PyErr (NodeMapping × List Snapshot) := do
  if resources.isEmpty then pure (m, [])
  else
    let rows ← normalizeAll resources
    if rows.isEmpty then pure (m, [])
    else pure (buildFromRowsD w m rows)

/-- A value stored in the plain-mapping snapshot dictionary. -/
inductive SnapVal where
  | time (t : Int)
  | counts (cs : List (PyVal × Nat))
  | edges (es : EdgeDict)

/-- The literal dictionary returned at lines 345-350: exactly the keys
`timestamp`, `num_nodes` and `edge_index_dict`. -/
def snapshotToDict (s : Snapshot) : List (String × SnapVal) :=
  [("timestamp", SnapVal.time s.timestamp),
   ("num_nodes", SnapVal.counts s.numNodes),
   ("edge_index_dict", SnapVal.edges s.edgeIndexDict)]

/-- `summary`'s node count of one dictionary snapshot (lines 368-372):
`snap.get("num_nodes", {})`, summed when it is a dictionary. -/
def summaryNodeCount (s : Snapshot) : Nat :=
  match (snapshotToDict s).lookup "num_nodes" with
  | some (SnapVal.counts cs) => (cs.map Prod.snd).sum
  | _ => 0

/-- `summary`'s edge count of one dictionary snapshot (lines 375-378): it
reads `snap.get("edges", {})` - a key the producer never sets - and sums
`len(v[0])` over it. -/
def summaryEdgeCount (s : Snapshot) : Nat :=
  match (snapshotToDict s).lookup "edges" with
  | some (SnapVal.edges es) => (es.map (fun e => e.2.1.length)).sum
  | _ => 0

/-- The actual number of `(source_index, target_index)` pairs across a
snapshot's edge-relation map. -/
def edgePairTotal (s : Snapshot) : Nat :=
  (s.edgeIndexDict.map (fun e => e.2.1.length)).sum

/-- `summary` over a materialized sequence of plain-mapping snapshots
(lines 358-391): snapshot count and aggregate node/edge totals. -/
def summarize (snaps : List Snapshot) : Nat × Nat × Nat :=
  snaps.foldl
    (fun acc s => (acc.1 + 1, acc.2.1 + summaryNodeCount s, acc.2.2 + summaryEdgeCount s))
    (0, 0, 0)

/-! ## Sample records used by concrete evaluations -/

/-- A Patient record timestamped by `birthDate`. -/
def recPatient : RawRecord :=
  [("resourceType", PyVal.vstr "Patient"), ("id", PyVal.vstr "p1"),
   ("birthDate", PyVal.vstr "2020-01-01")]

/-- A Condition record in the same day window pointing at the patient. -/
def recCondition : RawRecord :=
  [("resourceType", PyVal.vstr "Condition"), ("id", PyVal.vstr "c1"),
   ("recordedDate", PyVal.vstr "2020-01-01T05:00:00Z"),
   ("subject", PyVal.vdict [("reference", PyAtom.astr "Patient/p1")])]

/-! ## Helper lemmas -/

/-- Every record normalizing to a dropped row makes `normalizeAll` succeed
with no rows. -/
theorem normalizeAll_all_none {resources : List RawRecord}
    (h : ∀ r ∈ resources, normalizeRecord r = .ok none) :
    normalizeAll resources = .ok [] := by
  induction resources with
  | nil => rfl
  | cons r rs ih =>
    have hr := h r (by simp)
    have hrs := ih (fun x hx => h x (by simp [hx]))
    simp only [normalizeAll, hr, hrs]
    rfl

/-- When every record normalizes without raising, `normalizeAll` succeeds. -/
theorem normalizeAll_ok {resources : List RawRecord}
    (h : ∀ r ∈ resources, ∃ o, normalizeRecord r = .ok o) :
    ∃ rows, normalizeAll resources = .ok rows := by
  induction resources with
  | nil => exact ⟨[], rfl⟩
  | cons r rs ih =>
    obtain ⟨o, ho⟩ := h r (by simp)
    obtain ⟨rows, hrows⟩ := ih (fun x hx => h x (by simp [hx]))
    cases o with
    | none => exact ⟨rows, by simp only [normalizeAll, ho, hrows]; rfl⟩
    | some row => exact ⟨row :: rows, by simp only [normalizeAll, ho, hrows]; rfl⟩

/-- Reduction of `Except` bind on a success value. -/
theorem exceptBind_ok {e a b : Type} (x : a) (f : a → Except e b) :
    (Except.ok x >>= f : Except e b) = f x := rfl

/-- A two-element split certifies that the separator occurs in the string. -/
theorem strContains_of_splitOn_two {x sep t i : String}
    (h : strSplitOn x sep = [t, i]) : strContains x sep = true := by
  cases hf : findSubIdx sep.data x.data with
  | none =>
    exfalso
    simp [strSplitOn, splitGo, hf] at h
  | some j => simp [strContains, hf]

/-! ## Claims -/

/-- Claim C1: the claim states that in BOTH output representations every
snapshot carries a per-type node count for every resource type registered
so far, equal to the cumulative registered-identity count.  The plain
mapping does (third conjunct), but the tensor-graph representation does
not: `data = HeteroData()` at line 338 rebuilds a fresh container, so the
`num_nodes` values written at line 187 are discarded and the emitted
tensor-graph snapshot carries no node counts at all, even though the
registry holds one Patient identity. -/
theorem claim1_tensor_drops_node_counts :
    ((buildFromRowsT 86400 []
        [{ resourceType := PyVal.vstr "Patient", rid := PyVal.vstr "p1",
           timestamp := 0, subj_ref := PyVal.vnone, enc_ref := PyVal.vnone }]).2.map
        HeteroSnapshot.nodeTypes = [[]])
  ∧ countFor (buildFromRowsT 86400 []
        [{ resourceType := PyVal.vstr "Patient", rid := PyVal.vstr "p1",
           timestamp := 0, subj_ref := PyVal.vnone, enc_ref := PyVal.vnone }]).1
        (PyVal.vstr "Patient") = 1
  ∧ ((buildFromRowsD 86400 []
        [{ resourceType := PyVal.vstr "Patient", rid := PyVal.vstr "p1",
           timestamp := 0, subj_ref := PyVal.vnone, enc_ref := PyVal.vnone }]).2.map
        Snapshot.numNodes = [[(PyVal.vstr "Patient", 1)]]) := by
  decide

/-- Claim C9: `summary` reads `snap.get("edges", {})` (line 376) but the
plain-mapping producer stores the edge lists under `edge_index_dict`
(line 349), so the reported per-snapshot edge count is 0 even though the
snapshot built from a Patient plus a Condition referencing it holds one
`(source_index, target_index)` pair; the aggregate edge total is likewise
0 while the aggregate node total is 2. -/
theorem claim9_summary_edge_count_always_zero :
    (buildSnapshotsFull 86400 [] [recPatient, recCondition]).map
      (fun p => (p.2.map summaryEdgeCount, p.2.map edgePairTotal, summarize p.2)) =
    .ok ([0], [1], (1, 2, 0)) := by
  decide

/-- Claim C2 counterexample: the claim states that malformed input never
raises, including non-string timestamp values and non-mapping sub-objects.
A timestamped record whose `subject` is a plain string raises
`AttributeError` at line 105 (`.get` on a non-dictionary), and a record
whose `recordedDate` is an integer raises `TypeError` at line 87 (`len` of
a non-string), neither caught by the `except ValueError` clause; both
escape `build_snapshots`. -/
theorem claim2_counterexample :
    buildSnapshotsFull 86400 []
      [[("recordedDate", PyVal.vstr "2020-01-05"), ("subject", PyVal.vstr "Patient/1")]] =
      .error PyErr.attributeError
  ∧ buildSnapshotsFull 86400 [] [[("recordedDate", PyVal.vint 5)]] =
      .error PyErr.typeError := by
  decide

/-- Claim C2 amended: a record whose selected timestamp is a string that
fails to parse is silently dropped (contributes no row, surfaces no
error); and when every record normalizes without raising - in particular
when all sub-objects consulted are mappings and all selected timestamps
are strings - no exception escapes `build_snapshots`.  Non-string
timestamp values and non-mapping `period`/`subject`/`encounter`
sub-objects are not covered: they raise uncaught
`TypeError`/`AttributeError` (see the counterexample). -/
theorem claim2_amended :
    (∀ (res : RawRecord) (s : String), selectTs res = .ok (PyVal.vstr s) →
       parseTs (PyVal.vstr s) = .ok none → normalizeRecord res = .ok none)
  ∧ (∀ (w : Int) (m : NodeMapping) (resources : List RawRecord),
       (∀ r ∈ resources, ∃ o, normalizeRecord r = .ok o) →
       ∃ out, buildSnapshotsFull w m resources = .ok out) := by
  constructor
  · intro res s hsel hparse
    cases htv : truthy (PyVal.vstr s) with
    | false =>
      simp only [normalizeRecord, hsel, exceptBind_ok, htv]
      rfl
    | true =>
      simp only [normalizeRecord, hsel, exceptBind_ok, htv, hparse]
      rfl
  · intro w m resources h
    obtain ⟨rows, hrows⟩ := normalizeAll_ok h
    cases resources with
    | nil => exact ⟨(m, []), rfl⟩
    | cons r rs =>
      have hb : buildSnapshotsFull w m (r :: rs)
          = Except.bind (normalizeAll (r :: rs)) (fun rows =>
              if rows.isEmpty then pure (m, []) else pure (buildFromRowsD w m rows)) := rfl
      cases rows with
      | nil => exact ⟨(m, []), by rw [hb, hrows]; rfl⟩
      | cons x xs => exact ⟨buildFromRowsD w m (x :: xs), by rw [hb, hrows]; rfl⟩

/-- Claim C2 amended, witness: a record with an unparseable timestamp
string is dropped, and a well-formed collection builds without error. -/
theorem claim2_amended_witness :
    normalizeRecord [("recordedDate", PyVal.vstr "not-a-date")] = .ok none
  ∧ ∃ out, buildSnapshotsFull 86400 [] [recPatient] = .ok out := by
  constructor
  · exact claim2_amended.1 [("recordedDate", PyVal.vstr "not-a-date")] "not-a-date"
      (by decide) (by decide)
  · exact claim2_amended.2 86400 [] [recPatient]
      (by
        intro r hr
        simp at hr
        subst hr
        exact ⟨some { resourceType := PyVal.vstr "Patient", rid := PyVal.vstr "p1",
                      timestamp := 1577836800, subj_ref := PyVal.vnone,
                      enc_ref := PyVal.vnone }, by decide⟩)

/-- Claim C10: an empty input list yields an empty snapshot sequence with
the registry untouched (line 67), and so does any collection in which
every record is dropped for lack of a resolvable timestamp (line 117);
no identity is registered in either case. -/
theorem claim10_empty_or_all_dropped :
    (∀ (w : Int) (m : NodeMapping), buildSnapshotsFull w m [] = .ok (m, []))
  ∧ (∀ (w : Int) (m : NodeMapping) (resources : List RawRecord),
       (∀ r ∈ resources, normalizeRecord r = .ok none) →
       buildSnapshotsFull w m resources = .ok (m, [])) := by
  constructor
  · intro w m
    rfl
  · intro w m resources h
    cases resources with
    | nil => rfl
    | cons r rs =>
      have hb : buildSnapshotsFull w m (r :: rs)
          = Except.bind (normalizeAll (r :: rs)) (fun rows =>
              if rows.isEmpty then pure (m, []) else pure (buildFromRowsD w m rows)) := rfl
      rw [hb, normalizeAll_all_none h]
      rfl

/-- Claim C10 witness: a record bearing none of the seven timestamp fields
is dropped, yielding no snapshots and an unchanged registry. -/
theorem claim10_witness :
    buildSnapshotsFull 86400 [(PyVal.vstr "Patient", [PyVal.vstr "p0"])]
      [[("resourceType", PyVal.vstr "Patient"), ("id", PyVal.vstr "p9")]] =
    .ok ([(PyVal.vstr "Patient", [PyVal.vstr "p0"])], []) :=
  claim10_empty_or_all_dropped.2 86400 [(PyVal.vstr "Patient", [PyVal.vstr "p0"])]
    [[("resourceType", PyVal.vstr "Patient"), ("id", PyVal.vstr "p9")]]
    (by intro r hr; simp at hr; subst hr; decide)

/-- Claim C3 counterexample: the claim states that for a reference
containing "/" (and not starting with "urn:") the target type is the text
before the FINAL "/".  For "http://h/Patient/42" that text is
"http://h/Patient" (second conjunct exhibits the decomposition at the
final slash, whose id part is slash-free), yet the code takes
`split("/")[-2]` and resolves the type to "Patient". -/
theorem claim3_counterexample :
    resolveRef "http://h/Patient/42" "Observation" = ("Patient", "42")
  ∧ "http://h/Patient" ++ "/" ++ "42" = "http://h/Patient/42"
  ∧ strContains "42" "/" = false
  ∧ (resolveRef "http://h/Patient/42" "Observation").1 ≠ "http://h/Patient" := by
  decide

/-- Claim C3 amended: the resolved target type is the SECOND-TO-LAST
slash-separated component (`split("/")[-2]`), not all text before the
final slash, and the "urn" test for the id is containment of "urn:"
anywhere in the string, not only as a prefix.  Concretely: when the string
splits on "/" into exactly two parts and contains no "urn:", the result is
(part before the slash, part after); when it contains "urn:" but no "/",
the id is the text after the final ":" and the type is inferred; when it
contains neither "/" nor "urn:", the whole string is the id and the type
is inferred; and the three examples of the claim resolve as stated. -/
theorem claim3_amended :
    (∀ (x inferred t i : String), strSplitOn x "/" = [t, i] →
       strStartsWith x "urn:" = false → strContains x "urn:" = false →
       resolveRef x inferred = (t, i))
  ∧ (∀ (x inferred : String) (parts : List String), strContains x "urn:" = true →
       strContains x "/" = false → strSplitOn x ":" = parts →
       resolveRef x inferred = (inferred, parts.getD (parts.length - 1) ""))
  ∧ (∀ (x inferred : String), strContains x "/" = false → strContains x "urn:" = false →
       resolveRef x inferred = (inferred, x))
  ∧ resolveRef "Patient/42" "X" = ("Patient", "42")
  ∧ resolveRef "urn:uuid:abc-1" "Patient" = ("Patient", "abc-1")
  ∧ resolveRef "99" "Patient" = ("Patient", "99") := by
  refine ⟨?_, ?_, ?_, by decide, by decide, by decide⟩
  · intro x inferred t i hsplit hpre hurn
    have hc : strContains x "/" = true := strContains_of_splitOn_two hsplit
    simp [resolveRef, tgtTypeHint, tgtIdFun, hc, hpre, hurn, hsplit]
  · intro x inferred parts hurn hsl hsplit
    simp [resolveRef, tgtTypeHint, tgtIdFun, hurn, hsl, hsplit]
  · intro x inferred hsl hurn
    simp [resolveRef, tgtTypeHint, tgtIdFun, hurn, hsl]

/-- Claim C3 amended, witness: the three branch statements instantiated at
the claim's own examples. -/
theorem claim3_amended_witness :
    resolveRef "Patient/42" "Obs" = ("Patient", "42")
  ∧ resolveRef "urn:uuid:abc-1" "Enc" = ("Enc", "abc-1")
  ∧ resolveRef "99" "Obs" = ("Obs", "99") := by
  refine ⟨?_, ?_, ?_⟩
  · exact claim3_amended.1 "Patient/42" "Obs" "Patient" "42"
      (by decide) (by decide) (by decide)
  · exact (claim3_amended.2.1 "urn:uuid:abc-1" "Enc" ["urn", "uuid", "abc-1"]
      (by decide) (by decide) (by decide)).trans (by decide)
  · exact claim3_amended.2.2.1 "99" "Obs" (by decide) (by decide)

/-- Claim C4 counterexample: the claim says the FIRST NON-NULL timestamp
field wins.  With `recordedDate` present as the empty string (non-null)
and `effectiveDateTime` set, the `or`-chain at lines 74-80 skips the falsy
empty string and selects `effectiveDateTime`. -/
theorem claim4_counterexample :
    selectTs [("recordedDate", PyVal.vstr ""), ("effectiveDateTime", PyVal.vstr "2020-05-06")] =
      .ok (PyVal.vstr "2020-05-06")
  ∧ dictGet [("recordedDate", PyVal.vstr ""), ("effectiveDateTime", PyVal.vstr "2020-05-06")]
      "recordedDate" = PyVal.vstr ""
  ∧ PyVal.vstr "" ≠ PyVal.vnone := by
  decide

/-- Claim C4 amended: the timestamp used is the value of the first field
in the exact order recordedDate, effectiveDateTime, issued, authoredOn,
period.start, birthDate, date whose value is TRUTHY (non-null and
non-falsy: not None, "" or 0) - Python `or` semantics - with the final
fallback being the `date` value; in particular a record whose
`recordedDate` is truthy (e.g. any non-empty string) uses `recordedDate`
even when `effectiveDateTime` is also set. -/
theorem claim4_amended :
    ∀ res : RawRecord,
      (truthy (dictGet res "recordedDate") = true →
         selectTs res = .ok (dictGet res "recordedDate"))
    ∧ (truthy (dictGet res "recordedDate") = false →
         truthy (dictGet res "effectiveDateTime") = true →
         selectTs res = .ok (dictGet res "effectiveDateTime"))
    ∧ (truthy (dictGet res "recordedDate") = false →
         truthy (dictGet res "effectiveDateTime") = false →
         truthy (dictGet res "issued") = true →
         selectTs res = .ok (dictGet res "issued"))
    ∧ (truthy (dictGet res "recordedDate") = false →
         truthy (dictGet res "effectiveDateTime") = false →
         truthy (dictGet res "issued") = false →
         truthy (dictGet res "authoredOn") = true →
         selectTs res = .ok (dictGet res "authoredOn"))
    ∧ (∀ p, truthy (dictGet res "recordedDate") = false →
         truthy (dictGet res "effectiveDateTime") = false →
         truthy (dictGet res "issued") = false →
         truthy (dictGet res "authoredOn") = false →
         periodStart res = .ok p → truthy p = true →
         selectTs res = .ok p)
    ∧ (∀ p, truthy (dictGet res "recordedDate") = false →
         truthy (dictGet res "effectiveDateTime") = false →
         truthy (dictGet res "issued") = false →
         truthy (dictGet res "authoredOn") = false →
         periodStart res = .ok p → truthy p = false →
         truthy (dictGet res "birthDate") = true →
         selectTs res = .ok (dictGet res "birthDate"))
    ∧ (∀ p, truthy (dictGet res "recordedDate") = false →
         truthy (dictGet res "effectiveDateTime") = false →
         truthy (dictGet res "issued") = false →
         truthy (dictGet res "authoredOn") = false →
         periodStart res = .ok p → truthy p = false →
         truthy (dictGet res "birthDate") = false →
         selectTs res = .ok (dictGet res "date")) := by
  intro res
  refine ⟨?_, ?_, ?_, ?_, ?_, ?_, ?_⟩ <;>
    · intros
      simp only [selectTs, *]
      rfl

/-- Claim C4 amended, witness: with both `recordedDate` and
`effectiveDateTime` set to non-empty strings, `recordedDate` wins; with
`recordedDate` empty, `effectiveDateTime` wins. -/
theorem claim4_amended_witness :
    selectTs [("recordedDate", PyVal.vstr "2020-01-01"),
              ("effectiveDateTime", PyVal.vstr "2021-01-01")] =
      .ok (PyVal.vstr "2020-01-01")
  ∧ selectTs [("recordedDate", PyVal.vstr ""),
              ("effectiveDateTime", PyVal.vstr "2021-01-01")] =
      .ok (PyVal.vstr "2021-01-01") := by
  constructor
  · exact ((claim4_amended [("recordedDate", PyVal.vstr "2020-01-01"),
      ("effectiveDateTime", PyVal.vstr "2021-01-01")]).1 (by decide)).trans (by decide)
  · exact ((claim4_amended [("recordedDate", PyVal.vstr ""),
      ("effectiveDateTime", PyVal.vstr "2021-01-01")]).2.1 (by decide) (by decide)).trans
      (by decide)

/-- Claim C5: timestamp normalization.  A 4-character value is padded with
"-01-01" (month=1/day=1) and a 7-character value with "-01" (day=1) before
parsing; a trailing "Z" is replaced by the explicit UTC offset "+00:00"; a
parsed naive value is taken as a UTC instant unchanged; an aware value is
converted to UTC by subtracting its offset.  The result type (an epoch
instant) makes every normalized value a UTC instant. -/
theorem claim5_timestamp_normalization :
    (∀ s : String, s.length = 4 →
       parseTs (PyVal.vstr s) = parseTs (PyVal.vstr (s ++ "-01-01")))
  ∧ (∀ s : String, s.length = 7 →
       parseTs (PyVal.vstr s) = parseTs (PyVal.vstr (s ++ "-01")))
  ∧ (∀ s : String, s.length ≠ 4 → s.length ≠ 7 → strEndsWith s "Z" = true →
       parseTs (PyVal.vstr s) =
         .ok ((fromisoformatChars (s.dropRight 1 ++ "+00:00").data).map
               (fun p => p.1 - (p.2.getD 0))))
  ∧ (∀ (s : String) (t : Int), s.length ≠ 4 → s.length ≠ 7 →
       strEndsWith s "Z" = false → fromisoformatChars s.data = some (t, none) →
       parseTs (PyVal.vstr s) = .ok (some t))
  ∧ (∀ (s : String) (t off : Int), s.length ≠ 4 → s.length ≠ 7 →
       strEndsWith s "Z" = false → fromisoformatChars s.data = some (t, some off) →
       parseTs (PyVal.vstr s) = .ok (some (t - off))) := by
  have h6 : ("-01-01" : String).length = 6 := by decide
  have h3 : ("-01" : String).length = 3 := by decide
  refine ⟨?_, ?_, ?_, ?_, ?_⟩
  · intro s h
    simp only [parseTs, h, String.length_append, h6]
    norm_num
  · intro s h
    simp only [parseTs]
    norm_num [h, String.length_append, h3]
  · intro s h4 h7 hz
    simp only [parseTs, h4, h7, hz, if_neg, if_true, if_false, ite_false, ite_true]
    cases hf : fromisoformatChars ((s.dropRight 1 ++ "+00:00").data) with
    | none => simp [h4, h7, hz, hf]
    | some p => simp [h4, h7, hz, hf]
  · intro s t h4 h7 hz hf
    simp [parseTs, h4, h7, hz, hf]
  · intro s t off h4 h7 hz hf
    simp [parseTs, h4, h7, hz, hf]

/-- Claim C5 witness: the normalization rules evaluated at concrete
timestamps - bare year 2020, year-month 2020-03, a `Z`-suffixed aware
time, a naive time taken as UTC, and a `+02:00`-aware time shifted to
UTC. -/
theorem claim5_witness :
    parseTs (PyVal.vstr "2020") = .ok (some 1577836800)
  ∧ parseTs (PyVal.vstr "2020-03") = .ok (some 1583020800)
  ∧ parseTs (PyVal.vstr "2020-01-01T01:00:00Z") = .ok (some 1577840400)
  ∧ parseTs (PyVal.vstr "2020-01-01T01:00:00") = .ok (some 1577840400)
  ∧ parseTs (PyVal.vstr "2020-01-01T01:00:00+02:00") = .ok (some 1577833200) := by
  refine ⟨?_, ?_, ?_, ?_, ?_⟩
  · exact (claim5_timestamp_normalization.1 "2020" (by decide)).trans (by decide)
  · exact (claim5_timestamp_normalization.2.1 "2020-03" (by decide)).trans (by decide)
  · exact (claim5_timestamp_normalization.2.2.1 "2020-01-01T01:00:00Z"
      (by decide) (by decide) (by decide)).trans (by decide)
  · exact claim5_timestamp_normalization.2.2.2.1 "2020-01-01T01:00:00" 1577840400
      (by decide) (by decide) (by decide) (by decide)
  · exact (claim5_timestamp_normalization.2.2.2.2 "2020-01-01T01:00:00+02:00"
      1577840400 7200 (by decide) (by decide) (by decide) (by decide)).trans (by decide)

/-! ## Window partitioning lemmas (towards claim C7) -/

/-- Every member of a chunk carries the chunk's key. -/
theorem chunkBy_elem_key (key : Row → Int) :
    ∀ (l : List Row) (k : Int) (g : List Row), (k, g) ∈ chunkBy key l →
      ∀ x ∈ g, key x = k := by
  intro l
  induction l with
  | nil => intro k g h x hx; simp [chunkBy] at h
  | cons r rs ih =>
    intro k g hmem x hx
    rw [chunkBy] at hmem
    cases hcb : chunkBy key rs with
    | nil =>
      rw [hcb] at hmem
      simp only [chunkStep] at hmem
      have heq := List.mem_singleton.mp hmem
      injection heq with h1 h2
      subst h1
      subst h2
      have hxr := List.mem_singleton.mp hx
      subst hxr
      rfl
    | cons c cs =>
      obtain ⟨k2, g2⟩ := c
      rw [hcb] at hmem
      simp only [chunkStep] at hmem
      by_cases hk : key r = k2
      · rw [if_pos hk] at hmem
        rcases List.mem_cons.mp hmem with heq | htail
        · injection heq with h1 h2
          subst h1
          subst h2
          rcases List.mem_cons.mp hx with hxr | hxg
          · rw [hxr]; exact hk
          · exact ih k g2 (by rw [hcb]; exact List.mem_cons_self _ _) x hxg
        · exact ih k g (by rw [hcb]; exact List.mem_cons_of_mem _ htail) x hx
      · rw [if_neg hk] at hmem
        rcases List.mem_cons.mp hmem with heq | htail
        · injection heq with h1 h2
          subst h1
          subst h2
          have hxr := List.mem_singleton.mp hx
          subst hxr
          rfl
        · exact ih k g (by rw [hcb]; exact htail) x hx

/-- Every chunk group is a sublist of the partitioned list. -/
theorem chunkBy_elem_sublist (key : Row → Int) :
    ∀ (l : List Row) (k : Int) (g : List Row), (k, g) ∈ chunkBy key l →
      g.Sublist l := by
  intro l
  induction l with
  | nil => intro k g h; simp [chunkBy] at h
  | cons r rs ih =>
    intro k g hmem
    rw [chunkBy] at hmem
    cases hcb : chunkBy key rs with
    | nil =>
      rw [hcb] at hmem
      simp only [chunkStep] at hmem
      have heq := List.mem_singleton.mp hmem
      injection heq with h1 h2
      subst h2
      exact (List.nil_sublist rs).cons₂ r
    | cons c cs =>
      obtain ⟨k2, g2⟩ := c
      rw [hcb] at hmem
      simp only [chunkStep] at hmem
      by_cases hk : key r = k2
      · rw [if_pos hk] at hmem
        rcases List.mem_cons.mp hmem with heq | htail
        · injection heq with h1 h2
          subst h2
          exact (ih k2 g2 (by rw [hcb]; exact List.mem_cons_self _ _)).cons₂ r
        · exact (ih k g (by rw [hcb]; exact List.mem_cons_of_mem _ htail)).cons r
      · rw [if_neg hk] at hmem
        rcases List.mem_cons.mp hmem with heq | htail
        · injection heq with h1 h2
          subst h2
          exact (List.nil_sublist rs).cons₂ r
        · exact (ih k g (by rw [hcb]; exact htail)).cons r

/-- Chunk groups are non-empty. -/
theorem chunkBy_elem_ne_nil (key : Row → Int) :
    ∀ (l : List Row) (k : Int) (g : List Row), (k, g) ∈ chunkBy key l →
      g ≠ [] := by
  intro l
  induction l with
  | nil => intro k g h; simp [chunkBy] at h
  | cons r rs ih =>
    intro k g hmem
    rw [chunkBy] at hmem
    cases hcb : chunkBy key rs with
    | nil =>
      rw [hcb] at hmem
      simp only [chunkStep] at hmem
      have heq := List.mem_singleton.mp hmem
      injection heq with h1 h2
      subst h2
      simp
    | cons c cs =>
      obtain ⟨k2, g2⟩ := c
      rw [hcb] at hmem
      simp only [chunkStep] at hmem
      by_cases hk : key r = k2
      · rw [if_pos hk] at hmem
        rcases List.mem_cons.mp hmem with heq | htail
        · injection heq with h1 h2
          subst h2
          simp
        · exact ih k g (by rw [hcb]; exact List.mem_cons_of_mem _ htail)
      · rw [if_neg hk] at hmem
        rcases List.mem_cons.mp hmem with heq | htail
        · injection heq with h1 h2
          subst h2
          simp
        · exact ih k g (by rw [hcb]; exact htail)

/-- Every chunk key is the key of some member of the list. -/
theorem chunkBy_key_mem (key : Row → Int) (l : List Row) (k : Int) (g : List Row)
    (h : (k, g) ∈ chunkBy key l) : ∃ x ∈ l, key x = k := by
  obtain ⟨x, hx⟩ := List.exists_mem_of_ne_nil g (chunkBy_elem_ne_nil key l k g h)
  exact ⟨x, (chunkBy_elem_sublist key l k g h).subset hx,
         chunkBy_elem_key key l k g h x hx⟩

/-- On a list whose keys are monotone along the order, chunk keys strictly
increase. -/
theorem chunkBy_keys_lt (key : Row → Int) :
    ∀ l : List Row, l.Pairwise (fun a b => key a ≤ key b) →
      ((chunkBy key l).map Prod.fst).Pairwise (· < ·) := by
  intro l
  induction l with
  | nil => intro _; simp [chunkBy]
  | cons r rs ih =>
    intro hp
    have hp1 : ∀ x ∈ rs, key r ≤ key x := fun x hx => List.rel_of_pairwise_cons hp hx
    have ihr := ih (List.Pairwise.of_cons hp)
    rw [chunkBy]
    cases hcb : chunkBy key rs with
    | nil => simp [chunkStep]
    | cons c cs =>
      obtain ⟨k2, g2⟩ := c
      rw [hcb] at ihr
      simp only [chunkStep]
      by_cases hk : key r = k2
      · rw [if_pos hk]
        simpa using ihr
      · rw [if_neg hk]
        have hle : key r ≤ k2 := by
          obtain ⟨x, hxmem, hxkey⟩ := chunkBy_key_mem key rs k2 g2
            (by rw [hcb]; exact List.mem_cons_self _ _)
          exact hxkey ▸ hp1 x hxmem
        have hlt : key r < k2 := lt_of_le_of_ne hle hk
        have ihr2 : (k2 :: cs.map Prod.fst).Pairwise (· < ·) := by simpa using ihr
        rw [List.map_cons, List.map_cons]
        refine List.pairwise_cons.mpr ⟨?_, ihr2⟩
        intro k3 hk3
        rcases List.mem_cons.mp hk3 with h | h
        · rw [h]; exact hlt
        · exact lt_trans hlt (List.rel_of_pairwise_cons ihr2 h)

/-- The sorted frame is sorted. -/
theorem sortRows_sorted (rows : List Row) : (sortRows rows).Pairwise rowLE :=
  List.sorted_insertionSort rowLE rows

/-- Truncation is monotone for a positive window width. -/
theorem truncateTo_mono {w a b : Int} (hw : 0 < w) (h : a ≤ b) :
    truncateTo w a ≤ truncateTo w b := by
  unfold truncateTo
  have h1 : Int.fdiv a w ≤ Int.fdiv b w := by
    rw [Int.fdiv_eq_ediv _ (le_of_lt hw), Int.fdiv_eq_ediv _ (le_of_lt hw)]
    exact Int.ediv_le_ediv hw h
  exact mul_le_mul_of_nonneg_left h1 (le_of_lt hw)

/-- The timestamps of the emitted snapshots are the window keys, in
order. -/
theorem buildD_foldl_timestamps (chunks : List (Int × List Row)) :
    ∀ (m : NodeMapping) (acc : List Snapshot),
      ((chunks.foldl
          (fun acc kg =>
            let r := constructDict acc.1 kg.2 kg.1
            (r.1, acc.2 ++ [r.2]))
          (m, acc)).2).map Snapshot.timestamp
        = acc.map Snapshot.timestamp ++ chunks.map Prod.fst := by
  induction chunks with
  | nil => intro m acc; simp
  | cons c cs ih =>
    intro m acc
    simp only [List.foldl_cons]
    rw [ih]
    simp [constructDict]

/-- Snapshot timestamps of a build equal the window-partition keys. -/
theorem buildD_timestamps (w : Int) (m : NodeMapping) (rows : List Row) :
    ((buildFromRowsD w m rows).2).map Snapshot.timestamp
      = (windowPartition w rows).map Prod.fst := by
  unfold buildFromRowsD
  simpa using buildD_foldl_timestamps (windowPartition w rows) m []

/-- Claim C7: snapshots are emitted in strictly increasing window-start
order; each window's key is the truncation of every member's instant (so
windows are non-overlapping); and within a window the events remain in
chronological order of their instants. -/
theorem claim7_window_ordering (w : Int) (hw : 0 < w) (m : NodeMapping) (rows : List Row) :
    (((buildFromRowsD w m rows).2).map Snapshot.timestamp).Pairwise (· < ·)
  ∧ (∀ (k : Int) (g : List Row), (k, g) ∈ windowPartition w rows →
       (∀ r ∈ g, truncateTo w r.timestamp = k) ∧
       (g.map Row.timestamp).Pairwise (· ≤ ·)) := by
  constructor
  · rw [buildD_timestamps]
    apply chunkBy_keys_lt
    exact (sortRows_sorted rows).imp (fun h => truncateTo_mono hw h)
  · intro k g hmem
    refine ⟨chunkBy_elem_key _ _ k g hmem, ?_⟩
    rw [List.pairwise_map]
    exact List.Pairwise.sublist
      (chunkBy_elem_sublist _ _ k g hmem) (sortRows_sorted rows)

/-- Claim C7 witness: two one-day-apart events produce two windows with
strictly increasing starts, correct truncations and chronological window
contents. -/
theorem claim7_witness :
    (((buildFromRowsD 86400 []
        [{ resourceType := PyVal.vstr "Patient", rid := PyVal.vstr "p1",
           timestamp := 90000, subj_ref := PyVal.vnone, enc_ref := PyVal.vnone },
         { resourceType := PyVal.vstr "Patient", rid := PyVal.vstr "p2",
           timestamp := 3600, subj_ref := PyVal.vnone, enc_ref := PyVal.vnone }]).2).map
        Snapshot.timestamp).Pairwise (· < ·)
  ∧ (∀ (k : Int) (g : List Row),
       (k, g) ∈ windowPartition 86400
         [{ resourceType := PyVal.vstr "Patient", rid := PyVal.vstr "p1",
            timestamp := 90000, subj_ref := PyVal.vnone, enc_ref := PyVal.vnone },
          { resourceType := PyVal.vstr "Patient", rid := PyVal.vstr "p2",
            timestamp := 3600, subj_ref := PyVal.vnone, enc_ref := PyVal.vnone }] →
       (∀ r ∈ g, truncateTo 86400 r.timestamp = k) ∧
       (g.map Row.timestamp).Pairwise (· ≤ ·)) :=
  claim7_window_ordering 86400 (by decide) []
    [{ resourceType := PyVal.vstr "Patient", rid := PyVal.vstr "p1",
       timestamp := 90000, subj_ref := PyVal.vnone, enc_ref := PyVal.vnone },
     { resourceType := PyVal.vstr "Patient", rid := PyVal.vstr "p2",
       timestamp := 3600, subj_ref := PyVal.vnone, enc_ref := PyVal.vnone }]

/-! ## Registry lemmas (towards claim C6) -/

/-- A stored index is below the per-type count. -/
theorem idIndex_lt {i : PyVal} :
    ∀ {ids : List PyVal} {j : Nat}, idIndex i ids = some j → j < ids.length := by
  intro ids
  induction ids with
  | nil => intro j h; simp [idIndex] at h
  | cons a as ih =>
    intro j h
    by_cases ha : a = i
    · simp [idIndex, ha] at h
      simp only [List.length_cons]
      omega
    · simp only [idIndex, ha, if_false, ite_false] at h
      obtain ⟨j2, hj2, hj⟩ := Option.map_eq_some'.mp h
      have := ih hj2
      simp only [List.length_cons]
      omega

/-- A stored index certifies membership. -/
theorem idIndex_mem {i : PyVal} :
    ∀ {ids : List PyVal} {j : Nat}, idIndex i ids = some j → i ∈ ids := by
  intro ids
  induction ids with
  | nil => intro j h; simp [idIndex] at h
  | cons a as ih =>
    intro j h
    by_cases ha : a = i
    · simp [ha]
    · simp only [idIndex, ha, if_false, ite_false] at h
      obtain ⟨j2, hj2, _⟩ := Option.map_eq_some'.mp h
      exact List.mem_cons_of_mem a (ih hj2)

/-- A missing index certifies non-membership. -/
theorem idIndex_none_not_mem {i : PyVal} :
    ∀ {ids : List PyVal}, idIndex i ids = none → i ∉ ids := by
  intro ids
  induction ids with
  | nil => intro _; simp
  | cons a as ih =>
    intro h
    by_cases ha : a = i
    · simp [idIndex, ha] at h
    · simp only [idIndex, ha, if_false, ite_false, Option.map_eq_none'] at h
      simp only [List.mem_cons]
      rintro (rfl | hm)
      · exact ha rfl
      · exact ih h hm

/-- Membership yields a stored index. -/
theorem idIndex_isSome_of_mem {i : PyVal} :
    ∀ {ids : List PyVal}, i ∈ ids → ∃ j, idIndex i ids = some j := by
  intro ids
  induction ids with
  | nil => intro h; simp at h
  | cons a as ih =>
    intro h
    by_cases ha : a = i
    · exact ⟨0, by simp [idIndex, ha]⟩
    · rcases List.mem_cons.mp h with h1 | h1
      · exact absurd h1.symm ha
      · obtain ⟨j, hj⟩ := ih h1
        exact ⟨j + 1, by simp [idIndex, ha, hj]⟩

/-- Appending a fresh id stores it at index `length`. -/
theorem idIndex_append_self {i : PyVal} :
    ∀ {ids : List PyVal}, idIndex i ids = none →
      idIndex i (ids ++ [i]) = some ids.length := by
  intro ids
  induction ids with
  | nil => intro _; simp [idIndex]
  | cons a as ih =>
    intro h
    by_cases ha : a = i
    · simp [idIndex, ha] at h
    · simp only [idIndex, ha, if_false, ite_false, Option.map_eq_none'] at h
      simp only [List.cons_append, idIndex, ha, if_false, ite_false, List.length_cons]
      show Option.map (fun x => x + 1) (idIndex i (as ++ [i])) = some (as.length + 1)
      rw [ih h]
      rfl

/-- In a duplicate-free id list, the id at position `j` is stored at
index `j`. -/
theorem idIndex_get :
    ∀ (ids : List PyVal), ids.Nodup → ∀ (j : Nat) (hj : j < ids.length),
      idIndex (ids.get ⟨j, hj⟩) ids = some j := by
  intro ids
  induction ids with
  | nil => intro _ j hj; simp at hj
  | cons a as ih =>
    intro hnd j hj
    have hnd2 := List.nodup_cons.mp hnd
    cases j with
    | zero => simp [idIndex]
    | succ j2 =>
      have hmem : as.get ⟨j2, by simpa using hj⟩ ∈ as := List.get_mem as j2 (by simpa using hj)
      have hne : ¬(a = as.get ⟨j2, by simpa using hj⟩) := by
        intro hcontra
        exact hnd2.1 (hcontra ▸ hmem)
      simp only [List.get_cons_succ, idIndex, hne, if_false, ite_false,
        ih hnd2.2 j2 (by simpa using hj), Option.map_some']

/-- Registering the same pair twice returns the same mapping and index. -/
theorem getNodeIndex_idem :
    ∀ (m : NodeMapping) (t i : PyVal),
      getNodeIndex (getNodeIndex m t i).1 t i = getNodeIndex m t i := by
  intro m
  induction m with
  | nil =>
    intro t i
    simp [getNodeIndex, idIndex]
  | cons p rest ih =>
    intro t i
    obtain ⟨a, ids⟩ := p
    by_cases hta : t = a
    · cases hidx : idIndex i ids with
      | some j => simp [getNodeIndex, hta, hidx]
      | none => simp [getNodeIndex, hta, hidx, idIndex_append_self hidx]
    · simp only [getNodeIndex, hta, if_false, ite_false]
      rw [ih t i]

/-- Registering an already-present pair leaves the mapping unchanged. -/
theorem getNodeIndex_of_memPair :
    ∀ (m : NodeMapping) (t i : PyVal), memPair m t i →
      (getNodeIndex m t i).1 = m := by
  intro m
  induction m with
  | nil =>
    intro t i h
    obtain ⟨ids, hids, _⟩ := h
    simp [typeIds] at hids
  | cons p rest ih =>
    intro t i h
    obtain ⟨a, ids⟩ := p
    obtain ⟨ids2, hids, hmem⟩ := h
    by_cases hta : t = a
    · simp only [typeIds, hta, if_true, ite_true, Option.some.injEq] at hids
      subst hids
      obtain ⟨j, hj⟩ := idIndex_isSome_of_mem hmem
      simp [getNodeIndex, hta, hj]
    · simp only [typeIds, hta, if_false, ite_false] at hids
      simp only [getNodeIndex, hta, if_false, ite_false]
      rw [ih t i ⟨ids2, hids, hmem⟩]

/-- A registered pair is present afterwards. -/
theorem memPair_getNodeIndex_self :
    ∀ (m : NodeMapping) (t i : PyVal), memPair (getNodeIndex m t i).1 t i := by
  intro m
  induction m with
  | nil =>
    intro t i
    exact ⟨[i], by simp [getNodeIndex, typeIds], by simp⟩
  | cons p rest ih =>
    intro t i
    obtain ⟨a, ids⟩ := p
    by_cases hta : t = a
    · cases hidx : idIndex i ids with
      | some j =>
        exact ⟨ids, by simp [getNodeIndex, hta, hidx, typeIds], idIndex_mem hidx⟩
      | none =>
        exact ⟨ids ++ [i], by simp [getNodeIndex, hta, hidx, typeIds], by simp⟩
    · obtain ⟨ids2, hids2, hmem2⟩ := ih t i
      exact ⟨ids2, by simp [getNodeIndex, hta, typeIds, hids2], hmem2⟩

/-- Registration never removes present pairs. -/
theorem memPair_mono :
    ∀ (m : NodeMapping) (t i t2 i2 : PyVal), memPair m t i →
      memPair (getNodeIndex m t2 i2).1 t i := by
  intro m
  induction m with
  | nil =>
    intro t i t2 i2 h
    obtain ⟨ids, hids, _⟩ := h
    simp [typeIds] at hids
  | cons p rest ih =>
    intro t i t2 i2 h
    obtain ⟨a, ids⟩ := p
    obtain ⟨ids2, hids, hmem⟩ := h
    by_cases h2a : t2 = a
    · cases hidx : idIndex i2 ids with
      | some j =>
        exact ⟨ids2, by simpa [getNodeIndex, h2a, hidx] using hids, hmem⟩
      | none =>
        by_cases hta : t = a
        · simp only [typeIds, hta, if_true, ite_true, Option.some.injEq] at hids
          subst hids
          exact ⟨ids ++ [i2], by simp [getNodeIndex, h2a, hidx, typeIds, hta],
                 List.mem_append_left _ hmem⟩
        · simp only [typeIds, hta, if_false, ite_false] at hids
          exact ⟨ids2, by simp [getNodeIndex, h2a, hidx, typeIds, hta, hids], hmem⟩
    · by_cases hta : t = a
      · simp only [typeIds, hta, if_true, ite_true, Option.some.injEq] at hids
        subst hids
        exact ⟨ids, by simp [getNodeIndex, h2a, typeIds, hta], hmem⟩
      · simp only [typeIds, hta, if_false, ite_false] at hids
        obtain ⟨ids3, hids3, hmem3⟩ := ih t i t2 i2 ⟨ids2, hids, hmem⟩
        exact ⟨ids3, by simp [getNodeIndex, h2a, typeIds, hta, hids3], hmem3⟩

/-- `getNodeIndex` either keeps the type keys or appends the new type at
the end. -/
theorem getNodeIndex_map_fst :
    ∀ (m : NodeMapping) (t i : PyVal),
      ((getNodeIndex m t i).1.map Prod.fst = m.map Prod.fst)
      ∨ ((getNodeIndex m t i).1.map Prod.fst = m.map Prod.fst ++ [t]) := by
  intro m
  induction m with
  | nil => intro t i; right; simp [getNodeIndex]
  | cons p rest ih =>
    intro t i
    obtain ⟨a, ids⟩ := p
    by_cases hta : t = a
    · cases hidx : idIndex i ids with
      | some j => left; simp [getNodeIndex, hta, hidx]
      | none => left; simp [getNodeIndex, hta, hidx]
    · rcases ih t i with h | h
      · left; simp [getNodeIndex, hta, h]
      · right; simp [getNodeIndex, hta, h]

/-- Registration preserves registry well-formedness. -/
theorem getNodeIndex_WF :
    ∀ (m : NodeMapping) (t i : PyVal), WFMapping m →
      WFMapping (getNodeIndex m t i).1 := by
  intro m
  induction m with
  | nil =>
    intro t i _
    constructor
    · simp [getNodeIndex]
    · intro p hp
      simp [getNodeIndex] at hp
      subst hp
      simp
  | cons q rest ih =>
    intro t i h
    obtain ⟨a, ids⟩ := q
    obtain ⟨h1, h2⟩ := h
    simp only [List.map_cons, List.nodup_cons] at h1
    by_cases hta : t = a
    · cases hidx : idIndex i ids with
      | some j =>
        simp only [getNodeIndex, hta, if_true, ite_true, hidx]
        exact ⟨by simp [h1.1, h1.2], h2⟩
      | none =>
        simp only [getNodeIndex, hta, if_true, ite_true, hidx]
        constructor
        · simp [h1.1, h1.2]
        · intro p hp
          rcases List.mem_cons.mp hp with hp1 | hp1
          · subst hp1
            have hnodin := idIndex_none_not_mem hidx
            have hnd : ids.Nodup := h2 (a, ids) (List.mem_cons_self _ _)
            simp [List.nodup_append, hnd, hnodin]
          · exact h2 p (List.mem_cons_of_mem _ hp1)
    · have hwfrest : WFMapping rest :=
        ⟨h1.2, fun p hp => h2 p (List.mem_cons_of_mem _ hp)⟩
      have ihw := ih t i hwfrest
      simp only [getNodeIndex, hta, if_false, ite_false]
      constructor
      · simp only [List.map_cons, List.nodup_cons]
        constructor
        · rcases getNodeIndex_map_fst rest t i with hf | hf
          · rw [hf]; exact h1.1
          · rw [hf]
            intro hcontra
            rcases List.mem_append.mp hcontra with hc | hc
            · exact h1.1 hc
            · simp at hc
              exact hta hc.symm
        · exact ihw.1
      · intro p hp
        rcases List.mem_cons.mp hp with hp1 | hp1
        · subst hp1
          exact h2 (a, ids) (List.mem_cons_self _ _)
        · exact ihw.2 p hp1

/-- Registering a pair list decomposes along append. -/
theorem registerPairs_append (m : NodeMapping) (ps qs : List (PyVal × PyVal)) :
    registerPairs m (ps ++ qs) = registerPairs (registerPairs m ps) qs := by
  simp [registerPairs, List.foldl_append]

/-- Present pairs survive the registration of any pair list. -/
theorem registerPairs_mono :
    ∀ (ps : List (PyVal × PyVal)) (m : NodeMapping) (t i : PyVal),
      memPair m t i → memPair (registerPairs m ps) t i := by
  intro ps
  induction ps with
  | nil => intro m t i h; exact h
  | cons q qs ih =>
    intro m t i h
    exact ih _ t i (memPair_mono m t i q.1 q.2 h)

/-- Every pair of the registered list is present afterwards. -/
theorem registerPairs_mem :
    ∀ (ps : List (PyVal × PyVal)) (m : NodeMapping) (p : PyVal × PyVal), p ∈ ps →
      memPair (registerPairs m ps) p.1 p.2 := by
  intro ps
  induction ps with
  | nil => intro m p h; simp at h
  | cons q qs ih =>
    intro m p h
    rcases List.mem_cons.mp h with h1 | h1
    · subst h1
      exact registerPairs_mono qs _ p.1 p.2 (memPair_getNodeIndex_self m p.1 p.2)
    · exact ih _ p h1

/-- Registering only already-present pairs is the identity. -/
theorem registerPairs_of_all_mem :
    ∀ (ps : List (PyVal × PyVal)) (m : NodeMapping),
      (∀ p ∈ ps, memPair m p.1 p.2) → registerPairs m ps = m := by
  intro ps
  induction ps with
  | nil => intro m _; rfl
  | cons q qs ih =>
    intro m h
    have hq := h q (List.mem_cons_self _ _)
    have hstep : (getNodeIndex m q.1 q.2).1 = m := getNodeIndex_of_memPair m q.1 q.2 hq
    show registerPairs (getNodeIndex m q.1 q.2).1 qs = m
    rw [hstep]
    exact ih m (fun p hp => h p (List.mem_cons_of_mem _ hp))

/-- Registering the same pair list twice equals registering it once. -/
theorem registerPairs_idem (m : NodeMapping) (ps : List (PyVal × PyVal)) :
    registerPairs (registerPairs m ps) ps = registerPairs m ps :=
  registerPairs_of_all_mem ps _ (fun p hp => registerPairs_mem ps m p hp)

/-- A `typeIds` hit is a registry entry. -/
theorem typeIds_mem :
    ∀ (m : NodeMapping) (t : PyVal) (ids : List PyVal),
      typeIds m t = some ids → (t, ids) ∈ m := by
  intro m
  induction m with
  | nil => intro t ids h; simp [typeIds] at h
  | cons p rest ih =>
    intro t ids h
    obtain ⟨a, ids2⟩ := p
    by_cases hta : t = a
    · simp only [typeIds, hta, if_true, ite_true, Option.some.injEq] at h
      subst h
      subst hta
      exact List.mem_cons_self _ _
    · simp only [typeIds, hta, if_false, ite_false] at h
      exact List.mem_cons_of_mem _ (ih t ids h)

/-- The `(type, id)` pairs registered by step 1 of a window, in order. -/
def step1Pairs (rows : List Row) : List (PyVal × PyVal) :=
  ((partitionByType rows).map (fun tg => tg.2.map (fun r => (r.resourceType, r.rid)))).flatten

/-- The `(type, id)` pairs registered while processing one reference
field: nothing on a caught failure, and the first-loop pairs twice (the
revised loop re-registers them) on success.  Independent of the registry
state. -/
def relTrace (rows : List Row) (f : String) : List (PyVal × PyVal) :=
  match relParse rows f with
  | .ok parsed => relPairs1 parsed ++ relPairs1 parsed
  | .error _ => []

/-- All pairs registered by one window. -/
def windowPairs (rows : List Row) : List (PyVal × PyVal) :=
  step1Pairs rows ++ relTrace rows "subject" ++ relTrace rows "encounter"

/-- All pairs registered by a whole build, window by window. -/
def buildPairs (w : Int) (rows : List Row) : List (PyVal × PyVal) :=
  ((windowPartition w rows).map (fun kg => windowPairs kg.2)).flatten

/-- The registry component of the step-1 fold is a pair registration. -/
theorem step1_foldl_fst :
    ∀ (gs : List (PyVal × List Row)) (m : NodeMapping) (acc : List (PyVal × Nat)),
      (gs.foldl
        (fun acc tg =>
          let m' := registerPairs acc.1 (tg.2.map (fun r => (r.resourceType, r.rid)))
          (m', acc.2 ++ [(tg.1, countFor m' tg.1)])) (m, acc)).1
      = registerPairs m
          ((gs.map (fun tg => tg.2.map (fun r => (r.resourceType, r.rid)))).flatten) := by
  intro gs
  induction gs with
  | nil => intro m acc; rfl
  | cons g gs2 ih =>
    intro m acc
    simp only [List.foldl_cons, List.map_cons, List.flatten_cons]
    rw [registerPairs_append]
    exact ih _ _

/-- Step 1 registers exactly its pair trace. -/
theorem step1_fst (m : NodeMapping) (rows : List Row) :
    (step1 m rows).1 = registerPairs m (step1Pairs rows) :=
  step1_foldl_fst (partitionByType rows) m []

/-- The revised second loop re-registers the first-loop pairs. -/
theorem secondLoop_fst (rel : String) :
    ∀ (parsed : List ParsedRef) (st : NodeMapping × EdgeDict),
      (secondLoop rel st parsed).1 = registerPairs st.1 (relPairs1 parsed) := by
  intro parsed
  induction parsed with
  | nil => intro st; rfl
  | cons pr prs ih =>
    intro st
    obtain ⟨m, ed⟩ := st
    exact ih _

/-- A failing field leaves the registry alone; a succeeding field
registers its trace (first loop, then the revised loop again). -/
theorem relationStep_fst (rows : List Row) (acc : NodeMapping × EdgeDict) (f rel : String) :
    (relationStep rows acc (f, rel)).1 = registerPairs acc.1 (relTrace rows f) := by
  unfold relationStep relTrace
  cases hp : relParse rows f with
  | error e =>
    have hpr : processRelation acc.1 acc.2 rows f rel = .error e := by
      simp only [processRelation, hp]
      rfl
    rw [hpr]
    rfl
  | ok parsed =>
    have hpr : processRelation acc.1 acc.2 rows f rel
        = .ok (secondLoop rel (registerPairs acc.1 (relPairs1 parsed), acc.2) parsed) := by
      simp only [processRelation, hp]
      rfl
    rw [hpr]
    show (secondLoop rel (registerPairs acc.1 (relPairs1 parsed), acc.2) parsed).1 = _
    rw [secondLoop_fst]
    rw [registerPairs_append]

/-- The shared construction core registers exactly the window's pairs. -/
theorem constructCore_fst (m : NodeMapping) (rows : List Row) :
    (constructCore m rows).1 = registerPairs m (windowPairs rows) := by
  show (relationConfigs.foldl (relationStep rows) ((step1 m rows).1, [])).1
      = registerPairs m (windowPairs rows)
  have h1 : relationConfigs.foldl (relationStep rows) ((step1 m rows).1, [])
      = relationStep rows (relationStep rows ((step1 m rows).1, []) ("subject", "refers_to"))
          ("encounter", "occurs_in") := rfl
  rw [h1, relationStep_fst, relationStep_fst]
  simp only [step1_fst]
  rw [windowPairs, registerPairs_append, registerPairs_append]

/-- The registry component of the window fold is a pair registration. -/
theorem buildD_foldl_fst :
    ∀ (chunks : List (Int × List Row)) (m : NodeMapping) (acc : List Snapshot),
      ((chunks.foldl
          (fun acc kg =>
            let r := constructDict acc.1 kg.2 kg.1
            (r.1, acc.2 ++ [r.2]))
          (m, acc)).1)
      = registerPairs m ((chunks.map (fun kg => windowPairs kg.2)).flatten) := by
  intro chunks
  induction chunks with
  | nil => intro m acc; rfl
  | cons c cs ih =>
    intro m acc
    simp only [List.foldl_cons, List.map_cons, List.flatten_cons]
    rw [registerPairs_append]
    have hcd : (constructDict m c.2 c.1).1 = registerPairs m (windowPairs c.2) :=
      constructCore_fst m c.2
    rw [ih, hcd]

/-- A whole build registers exactly its pair trace. -/
theorem buildFromRowsD_fst (w : Int) (m : NodeMapping) (rows : List Row) :
    (buildFromRowsD w m rows).1 = registerPairs m (buildPairs w rows) :=
  buildD_foldl_fst (windowPartition w rows) m []

/-- Re-running the window loop on its own output registry changes
nothing. -/
theorem buildD_mapping_idem (w : Int) (m : NodeMapping) (rows : List Row) :
    (buildFromRowsD w (buildFromRowsD w m rows).1 rows).1 = (buildFromRowsD w m rows).1 := by
  rw [buildFromRowsD_fst w (buildFromRowsD w m rows).1 rows, buildFromRowsD_fst w m rows]
  exact registerPairs_idem m (buildPairs w rows)

/-- Claim C6: the registry operation is idempotent and dense, and the
mapping persists across build invocations.  Conjuncts: (1) re-registering
a pair returns the same mapping and index; (2) every stored index is below
the per-type count; (3) in a well-formed registry every index below the
count is assigned to some id (so the indices form exactly 0..k-1);
(4) registration preserves well-formedness; (5) re-running the window loop
on its own output registry changes nothing; (6) a second `build_snapshots`
call with identical input returns the same registry it received. -/
theorem claim6_registry :
    (∀ (m : NodeMapping) (t i : PyVal),
        getNodeIndex (getNodeIndex m t i).1 t i = getNodeIndex m t i)
  ∧ (∀ (m : NodeMapping) (t i : PyVal) (j : Nat),
        lookupIndex m t i = some j → j < countFor m t)
  ∧ (∀ (m : NodeMapping) (t : PyVal), WFMapping m → ∀ j, j < countFor m t →
        ∃ i, lookupIndex m t i = some j)
  ∧ (∀ (m : NodeMapping) (t i : PyVal), WFMapping m → WFMapping (getNodeIndex m t i).1)
  ∧ (∀ (w : Int) (m : NodeMapping) (rows : List Row),
        (buildFromRowsD w (buildFromRowsD w m rows).1 rows).1
          = (buildFromRowsD w m rows).1)
  ∧ (∀ (w : Int) (m m1 : NodeMapping) (resources : List RawRecord) (s : List Snapshot),
        buildSnapshotsFull w m resources = .ok (m1, s) →
        ∃ s2, buildSnapshotsFull w m1 resources = .ok (m1, s2)) := by
  refine ⟨getNodeIndex_idem, ?_, ?_, getNodeIndex_WF, buildD_mapping_idem, ?_⟩
  · intro m t i j h
    unfold lookupIndex countFor at *
    cases hty : typeIds m t with
    | none => rw [hty] at h; simp at h
    | some ids =>
      rw [hty] at h
      simp only [Option.bind_some, Option.getD_some, hty]
      simp only [Option.some_bind] at h
      exact idIndex_lt h
  · intro m t hwf j hj
    unfold countFor at hj
    cases hty : typeIds m t with
    | none => rw [hty] at hj; simp at hj
    | some ids =>
      rw [hty] at hj
      simp only [Option.getD_some] at hj
      have hnd : ids.Nodup := hwf.2 (t, ids) (typeIds_mem m t ids hty)
      exact ⟨ids.get ⟨j, hj⟩, by
        unfold lookupIndex
        rw [hty]
        simp only [Option.some_bind]
        exact idIndex_get ids hnd j hj⟩
  · intro w m m1 resources s h
    cases resources with
    | nil =>
      have : (m, ([] : List Snapshot)) = (m1, s) := by
        have hb : buildSnapshotsFull w m [] = .ok (m, []) := rfl
        rw [hb] at h
        exact Except.ok.inj h
      obtain ⟨hm, _⟩ := Prod.mk.injEq .. |>.mp this
      subst hm
      exact ⟨[], rfl⟩
    | cons r rs =>
      have hb : ∀ m0 : NodeMapping, buildSnapshotsFull w m0 (r :: rs)
          = Except.bind (normalizeAll (r :: rs)) (fun rows =>
              if rows.isEmpty then pure (m0, []) else pure (buildFromRowsD w m0 rows)) :=
        fun m0 => rfl
      rw [hb m] at h
      cases hrows : normalizeAll (r :: rs) with
      | error e => rw [hrows] at h; exact absurd h (by simp [Except.bind])
      | ok rows =>
        rw [hrows] at h
        cases rows with
        | nil =>
          have : (m, ([] : List Snapshot)) = (m1, s) := Except.ok.inj h
          obtain ⟨hm, _⟩ := Prod.mk.injEq .. |>.mp this
          subst hm
          exact ⟨[], by rw [hb m, hrows]; rfl⟩
        | cons x xs =>
          have heq : buildFromRowsD w m (x :: xs) = (m1, s) := Except.ok.inj h
          have hm1 : (buildFromRowsD w m (x :: xs)).1 = m1 := by rw [heq]
          have hidem : (buildFromRowsD w m1 (x :: xs)).1 = m1 := by
            rw [← hm1]
            exact buildD_mapping_idem w m (x :: xs)
          refine ⟨(buildFromRowsD w m1 (x :: xs)).2, ?_⟩
          rw [hb m1, hrows]
          show Except.ok (buildFromRowsD w m1 (x :: xs))
              = Except.ok (m1, (buildFromRowsD w m1 (x :: xs)).2)
          exact congrArg Except.ok (Prod.ext_iff.mpr ⟨hidem, rfl⟩)

/-- Claim C6 witness: concrete registry interactions - idempotent
re-registration, bounded and surjective indices on a well-formed registry,
preserved well-formedness, and a re-entrant two-record build. -/
theorem claim6_registry_witness :
    getNodeIndex (getNodeIndex [] (PyVal.vstr "Patient") (PyVal.vstr "p1")).1
        (PyVal.vstr "Patient") (PyVal.vstr "p1")
      = getNodeIndex [] (PyVal.vstr "Patient") (PyVal.vstr "p1")
  ∧ (1 : Nat) < countFor [(PyVal.vstr "Patient", [PyVal.vstr "a", PyVal.vstr "b"])]
      (PyVal.vstr "Patient")
  ∧ (∃ i, lookupIndex [(PyVal.vstr "Patient", [PyVal.vstr "a", PyVal.vstr "b"])]
      (PyVal.vstr "Patient") i = some 1)
  ∧ WFMapping (getNodeIndex [(PyVal.vstr "Patient", [PyVal.vstr "a", PyVal.vstr "b"])]
      (PyVal.vstr "Patient") (PyVal.vstr "c")).1
  ∧ (buildFromRowsD 86400
      (buildFromRowsD 86400 []
        [{ resourceType := PyVal.vstr "Patient", rid := PyVal.vstr "p1",
           timestamp := 0, subj_ref := PyVal.vnone, enc_ref := PyVal.vnone }]).1
      [{ resourceType := PyVal.vstr "Patient", rid := PyVal.vstr "p1",
         timestamp := 0, subj_ref := PyVal.vnone, enc_ref := PyVal.vnone }]).1
    = (buildFromRowsD 86400 []
        [{ resourceType := PyVal.vstr "Patient", rid := PyVal.vstr "p1",
           timestamp := 0, subj_ref := PyVal.vnone, enc_ref := PyVal.vnone }]).1 := by
  refine ⟨claim6_registry.1 [] (PyVal.vstr "Patient") (PyVal.vstr "p1"), by decide, ?_, ?_, ?_⟩
  · exact claim6_registry.2.2.1 [(PyVal.vstr "Patient", [PyVal.vstr "a", PyVal.vstr "b"])]
      (PyVal.vstr "Patient") (by constructor <;> decide) 1 (by decide)
  · exact claim6_registry.2.2.2.1 [(PyVal.vstr "Patient", [PyVal.vstr "a", PyVal.vstr "b"])]
      (PyVal.vstr "Patient") (PyVal.vstr "c") (by constructor <;> decide)
  · exact claim6_registry.2.2.2.2.1 86400 []
      [{ resourceType := PyVal.vstr "Patient", rid := PyVal.vstr "p1",
         timestamp := 0, subj_ref := PyVal.vnone, enc_ref := PyVal.vnone }]

/-! ## Field-failure containment lemmas (towards claim C8) -/

/-- A caught field failure is a no-op on registry and edges. -/
theorem relationStep_of_error (rows : List Row) (m : NodeMapping) (ed : EdgeDict)
    (f r : String) (e : PyErr) (h : processRelation m ed rows f r = .error e) :
    relationStep rows (m, ed) (f, r) = (m, ed) := by
  simp [relationStep, h]

/-- Snapshot count equals window count (from the timestamp alignment). -/
theorem buildD_length (w : Int) (m : NodeMapping) (rows : List Row) :
    ((buildFromRowsD w m rows).2).length = (windowPartition w rows).length := by
  have h := congrArg List.length (buildD_timestamps w m rows)
  simpa using h

/-- `edAppend` introduces no key other than the appended one. -/
theorem edAppend_keys :
    ∀ (ed : EdgeDict) (k : EdgeKey) (a b : Nat) (k2 : EdgeKey),
      k2 ∈ (edAppend ed k a b).map Prod.fst → k2 ∈ ed.map Prod.fst ∨ k2 = k := by
  intro ed
  induction ed with
  | nil =>
    intro k a b k2 h
    simp [edAppend] at h
    exact Or.inr h
  | cons p rest ih =>
    intro k a b k2 h
    obtain ⟨k3, ls⟩ := p
    by_cases hk : k = k3
    · rw [edAppend, if_pos hk] at h
      simp only [List.map_cons, List.mem_cons] at h ⊢
      rcases h with h | h
      · exact Or.inl (Or.inl h)
      · exact Or.inl (Or.inr h)
    · rw [edAppend, if_neg hk] at h
      simp only [List.map_cons, List.mem_cons] at h ⊢
      rcases h with h | h
      · exact Or.inl (Or.inl h)
      · rcases ih k a b k2 h with h2 | h2
        · exact Or.inl (Or.inr h2)
        · exact Or.inr h2

/-- Every edge key contributed by the second loop beyond the incoming
dictionary carries the loop's relation name. -/
theorem secondLoop_keys (rel : String) :
    ∀ (parsed : List ParsedRef) (st : NodeMapping × EdgeDict) (k : EdgeKey),
      k ∈ ((secondLoop rel st parsed).2.map Prod.fst) →
      k ∈ st.2.map Prod.fst ∨ k.2.1 = rel := by
  intro parsed
  induction parsed with
  | nil => intro st k h; exact Or.inl h
  | cons pr prs ih =>
    intro st k h
    obtain ⟨m, ed⟩ := st
    rcases ih _ k h with h1 | h1
    · rcases edAppend_keys ed _ _ _ k h1 with h2 | h2
      · exact Or.inl h2
      · right; rw [h2]
    · exact Or.inr h1

/-- Claim C8: a failure while processing a reference field is caught
inside the window.  Conjuncts: (1) when `processRelation` fails, the
caught step leaves registry and edge dictionary exactly as they were (the
field contributes zero edges); (2) a snapshot is still emitted for every
window, whatever the field contents (snapshot count always equals window
count, and the construction is total so no exception reaches the caller);
(3) concretely, when the `subject` field fails for a window, the emitted
snapshot holds no `refers_to` edge keys at all. -/
theorem claim8_field_failure_contained :
    (∀ (rows : List Row) (m : NodeMapping) (ed : EdgeDict) (f r : String) (e : PyErr),
        processRelation m ed rows f r = .error e →
        relationStep rows (m, ed) (f, r) = (m, ed))
  ∧ (∀ (w : Int) (m : NodeMapping) (rows : List Row),
        ((buildFromRowsD w m rows).2).length = (windowPartition w rows).length)
  ∧ (∀ (m : NodeMapping) (rows : List Row) (ws : Int) (e : PyErr),
        processRelation (step1 m rows).1 [] rows "subject" "refers_to" = .error e →
        ∀ k ∈ (((constructDict m rows ws).2).edgeIndexDict.map Prod.fst),
          k.2.1 ≠ "refers_to") := by
  refine ⟨relationStep_of_error, buildD_length, ?_⟩
  intro m rows ws e herr k hk hcontra
  have hcore : ((constructDict m rows ws).2).edgeIndexDict
      = (relationStep rows (relationStep rows ((step1 m rows).1, [])
          ("subject", "refers_to")) ("encounter", "occurs_in")).2 := rfl
  rw [hcore, relationStep_of_error rows (step1 m rows).1 [] "subject" "refers_to" e herr]
    at hk
  cases hpe : processRelation (step1 m rows).1 [] rows "encounter" "occurs_in" with
  | error e2 =>
    rw [relationStep_of_error rows (step1 m rows).1 [] "encounter" "occurs_in" e2 hpe]
      at hk
    simp at hk
  | ok st =>
    have hrs : relationStep rows ((step1 m rows).1, []) ("encounter", "occurs_in") = st := by
      simp [relationStep, hpe]
    rw [hrs] at hk
    cases hp : relParse rows "encounter" with
    | error e3 =>
      rw [show processRelation (step1 m rows).1 [] rows "encounter" "occurs_in"
            = .error e3 from by simp only [processRelation, hp]; rfl] at hpe
      exact absurd hpe (by simp)
    | ok parsed =>
      have hst : st = secondLoop "occurs_in"
          (registerPairs (step1 m rows).1 (relPairs1 parsed), []) parsed := by
        rw [show processRelation (step1 m rows).1 [] rows "encounter" "occurs_in"
              = .ok (secondLoop "occurs_in"
                  (registerPairs (step1 m rows).1 (relPairs1 parsed), []) parsed)
            from by simp only [processRelation, hp]; rfl] at hpe
        exact (Except.ok.inj hpe).symm
      rw [hst] at hk
      rcases secondLoop_keys "occurs_in" parsed _ k hk with h1 | h1
      · simp at h1
      · rw [hcontra] at h1
        exact absurd h1 (by decide)

/-- Claim C8 witness: a window whose only row carries a non-string
`subject` reference - the projection raises, the failure is caught, the
registry and edge dictionary are untouched, the snapshot is still emitted,
and it holds no `refers_to` keys. -/
theorem claim8_witness :
    relationStep
        [{ resourceType := PyVal.vstr "Observation", rid := PyVal.vstr "o1",
           timestamp := 0, subj_ref := PyVal.vint 7, enc_ref := PyVal.vnone }]
        ([(PyVal.vstr "Observation", [PyVal.vstr "o1"])], []) ("subject", "refers_to")
      = ([(PyVal.vstr "Observation", [PyVal.vstr "o1"])], [])
  ∧ ((buildFromRowsD 86400 []
        [{ resourceType := PyVal.vstr "Observation", rid := PyVal.vstr "o1",
           timestamp := 0, subj_ref := PyVal.vint 7, enc_ref := PyVal.vnone }]).2).length
      = (windowPartition 86400
          [{ resourceType := PyVal.vstr "Observation", rid := PyVal.vstr "o1",
             timestamp := 0, subj_ref := PyVal.vint 7, enc_ref := PyVal.vnone }]).length
  ∧ (∀ k ∈ (((constructDict []
        [{ resourceType := PyVal.vstr "Observation", rid := PyVal.vstr "o1",
           timestamp := 0, subj_ref := PyVal.vint 7, enc_ref := PyVal.vnone }] 0).2).edgeIndexDict.map
          Prod.fst),
        k.2.1 ≠ "refers_to") := by
  refine ⟨?_, ?_, ?_⟩
  · exact claim8_field_failure_contained.1
      [{ resourceType := PyVal.vstr "Observation", rid := PyVal.vstr "o1",
         timestamp := 0, subj_ref := PyVal.vint 7, enc_ref := PyVal.vnone }]
      [(PyVal.vstr "Observation", [PyVal.vstr "o1"])] [] "subject" "refers_to"
      PyErr.typeError (by decide)
  · exact claim8_field_failure_contained.2.1 86400 []
      [{ resourceType := PyVal.vstr "Observation", rid := PyVal.vstr "o1",
         timestamp := 0, subj_ref := PyVal.vint 7, enc_ref := PyVal.vnone }]
  · exact claim8_field_failure_contained.2.2 []
      [{ resourceType := PyVal.vstr "Observation", rid := PyVal.vstr "o1",
         timestamp := 0, subj_ref := PyVal.vint 7, enc_ref := PyVal.vnone }] 0
      PyErr.typeError (by decide)
